import Mathlib

/-!
Shallow embedding of the benchmark normalizer (src/bench/clean_up.py) and
the reporter (src/bench/proc.py) of the Luna-Flow/linear-algebra repository.

Strings are lists of characters (`Str`); Python dicts are association lists
preserving insertion order (a new key is appended, an existing key is
overwritten in place, exactly as in CPython); JSON values are the inductive
`Json`, with numbers as rationals; statistics objects are opaque `Json`
values passed through unchanged.  A source line is represented by its parse
outcome: `none` when the stripped line does not start with a brace or
`json.loads` fails, `some j` when it parses to the JSON value `j`.
-/

abbrev Str := List Char

inductive Json where
  | null
  | bool (b : Bool)
  | num (q : ℚ)
  | str (s : Str)
  | arr (elems : List Json)
  | obj (fields : List (Str × Json))

/-- Python dict lookup `d[k]` (string keys; keys of a dict built by
assignment are unique, so first match is the match). -/
def alLookup {V : Type} : List (Str × V) → Str → Option V
  | [], _ => none
  | (a, v) :: rest, k => if a = k then some v else alLookup rest k

/-- Python dict assignment `d[k] = v`: an existing key keeps its position
and gets the new value, a new key is appended at the end. -/
def alSet {V : Type} : List (Str × V) → Str → V → List (Str × V)
  | [], k, w => [(k, w)]
  | (a, v) :: rest, k, w =>
      if a = k then (k, w) :: rest else (a, v) :: alSet rest k w

/-! ## get_info (clean_up.py lines 8-84) -/

/-- A match of the regex `scale\((\d+)\)` anchored at the head of `s`:
the literal `scale(`, then a maximal nonempty digit run, then `)`.
(Backtracking the greedy `\d+` never helps: a shorter run is followed by a
digit, not `)`, so the anchored match succeeds exactly in this case.) -/
def matchScaleHere (s : Str) : Option Str :=
  if ("scale(".data).isPrefixOf s then
    if (s.drop ("scale(".data).length).takeWhile Char.isDigit ≠ [] ∧
        ((s.drop ("scale(".data).length).dropWhile Char.isDigit).head? = some ')' then
      some ((s.drop ("scale(".data).length).takeWhile Char.isDigit)
    else none
  else none

/-- `re.search(r'scale\((\d+)\)', s)` (clean_up.py line 10): the leftmost
match, scanning positions left to right. -/
def findScale : Str → Option Str
  | [] => none
  | c :: cs =>
    match matchScaleHere (c :: cs) with
    | some ds => some ds
    | none => findScale cs

/-- The prefix table of clean_up.py line 31 after the stable
length-descending sort of line 32 (lengths 9,9,8,8,7,6,4,4,3; ties keep
source order). -/
def prefixTable : List Str :=
  ["array_1d_".data, "array_2d_".data, "array1d_".data, "array2d_".data,
   "native_".data, "naive_".data, "lib_".data, "_2d_".data, "2d_".data]

/-- One pass of the `for p in prefixes` loop (lines 37-41): the first
matching entry of the table, if any, is removed from the front of `op`. -/
def stripOnce (op : Str) : Option Str :=
  (prefixTable.find? (fun p => p.isPrefixOf op)).map (fun p => op.drop p.length)

/-- The `while changed` loop (lines 34-41), with explicit fuel: every
successful pass strictly shortens `op`, so `op.length` passes suffice. -/
def stripAllF : Nat → Str → Str
  | 0, op => op
  | fuel + 1, op =>
    match stripOnce op with
    | some op2 => stripAllF fuel op2
    | none => op

def stripAll (op : Str) : Str := stripAllF op.length op

/-- The alias table `mapping` of clean_up.py lines 44-74. -/
def aliasTable : List (Str × Str) :=
  [("matrix_mul".data, "mat_mul".data),
   ("matrix_vector_mul".data, "mat_vec_mul".data),
   ("vector_dot".data, "vec_dot".data),
   ("matrix_acc".data, "mat_acc".data),
   ("matrix_access".data, "mat_acc".data),
   ("matrix_set_acc".data, "mat_set_acc".data),
   ("matrix_det".data, "mat_det".data),
   ("matrix_determinant".data, "mat_det".data),
   ("matrix_inv".data, "mat_inv".data),
   ("matrix_inverse".data, "mat_inv".data),
   ("matrix_rank".data, "mat_rank".data),
   ("matrix_mapi".data, "mat_mapi".data),
   ("matrix_map_inplace".data, "mat_map_inplace".data),
   ("mul".data, "mat_mul".data),
   ("vec_mul".data, "mat_vec_mul".data),
   ("dot".data, "vec_dot".data),
   ("acc".data, "mat_acc".data),
   ("access".data, "mat_acc".data),
   ("set_acc".data, "mat_set_acc".data),
   ("mapi".data, "mat_mapi".data),
   ("map_inplace".data, "mat_map_inplace".data),
   ("det".data, "mat_det".data),
   ("determinant".data, "mat_det".data),
   ("rank".data, "mat_rank".data),
   ("inv".data, "mat_inv".data),
   ("inverse".data, "mat_inv".data)]

/-- Python `s.replace(pat, sub)` for nonempty `pat` (the only way it is
called here): scan left to right, replace non-overlapping occurrences, do
not rescan the replacement text.  Fuel: each step consumes at least one
character of `s`, so `s.length` steps suffice. -/
def strReplaceF : Nat → Str → Str → Str → Str
  | 0, s, _, _ => s
  | fuel + 1, s, pat, sub =>
    if pat ≠ [] ∧ pat.isPrefixOf s then
      sub ++ strReplaceF fuel (s.drop pat.length) pat sub
    else
      match s with
      | [] => []
      | c :: cs => c :: strReplaceF fuel cs pat sub

def strReplace (s pat sub : Str) : Str := strReplaceF s.length s pat sub

/-- The renaming pass of clean_up.py lines 75-82. -/
def canonicalize (op : Str) : Str :=
  match alLookup aliasTable op with
  | some v => v
  | none =>
    if op = "each".data ∨ op = "each_row_col".data ∨ op = "power".data then
      "mat_".data ++ op
    else if ("matrix_".data).isPrefixOf op then
      strReplace op ("matrix_".data) ("mat_".data)
    else if ("vector_".data).isPrefixOf op then
      strReplace op ("vector_".data) ("vec_".data)
    else op

/-- Implementation-type classification of clean_up.py lines 17-26. -/
def implOf (opPart : Str) : Str :=
  if ("naive_".data).isPrefixOf opPart then "naive".data
  else if ("array1d_".data).isPrefixOf opPart ∨ ("native_".data).isPrefixOf opPart then
    "array1d".data
  else if ("array2d_".data).isPrefixOf opPart ∨ ("2d_".data).isPrefixOf opPart
      ∨ ("_2d_".data).isPrefixOf opPart then
    "array2d".data
  else if ("lib_".data).isPrefixOf opPart then "lib".data
  else "other".data

structure Info where
  op : Str
  scale : Str
  impl : Str

/-- `get_info` of clean_up.py lines 8-84.  `full_name.split(' ')[0]` is the
token before the first space. -/
def get_info (full_name : Str) : Info :=
  let scale := (findScale full_name).getD ("unknown".data)
  let opPart := full_name.takeWhile (fun c => c != ' ')
  { op := canonicalize (stripAll opPart), scale := scale, impl := implOf opPart }

/-! ## main of clean_up.py (lines 86-148) -/

structure Update where
  op : Str
  scale : Str
  backend : Str
  impl : Str
  stats : Json

/-- Python truthiness of a JSON-decoded value (`if entries:`). -/
def truthy : Json → Bool
  | .null => false
  | .bool b => b
  | .num q => decide (¬ q = 0)
  | .str s => decide (¬ s = [])
  | .arr es => !es.isEmpty
  | .obj fs => !fs.isEmpty

/-- `for full_name, stats in entry.items()` (lines 124-126) for one entry
that is a JSON object. -/
def entryUpdates (backend : Str) (fields : List (Str × Json)) : List Update :=
  fields.map (fun f =>
    let i := get_info f.1
    { op := i.op, scale := i.scale, backend := backend, impl := i.impl, stats := f.2 })

/-- `for entry in entries` (lines 123-126): a non-object entry raises inside
the per-line `try`, aborting the rest of the line while the updates already
appended to `temp_updates` are kept. -/
def entriesUpdates (backend : Str) : List Json → List Update
  | [] => []
  | .obj fs :: rest => entryUpdates backend fs ++ entriesUpdates backend rest
  | _ :: _ => []

/-- The body of the per-line loop (lines 113-128) on the parse outcome of
one line.  First component: the contribution to `new_entries_found` (set as
soon as `entries` is truthy, before iteration); second: the updates the line
appends to `temp_updates`.  `data_key = list(content.keys())[0]` takes the
first key of the object (an empty object raises and is skipped); a truthy
non-list `entries` raises when iterated, after the flag was set. -/
def processLine (backend : Str) : Option Json → Bool × List Update
  | none => (false, [])
  | some j =>
    match j with
    | .obj ((_, entries) :: _) =>
      if truthy entries then
        (true,
          match entries with
          | .arr es => entriesUpdates backend es
          | _ => [])
      else (false, [])
    | _ => (false, [])

/-- Reading one source file (lines 108-128): `new_entries_found` and
`temp_updates` accumulated over all lines. -/
def processFile (backend : Str) (lines : List (Option Json)) : Bool × List Update :=
  lines.foldl (fun acc l =>
    let r := processLine backend l
    (acc.1 || r.1, acc.2 ++ r.2)) (false, [])

abbrev ImplMap := List (Str × Json)
abbrev BackendMap := List (Str × ImplMap)
abbrev ScaleMap := List (Str × BackendMap)
abbrev ResultTree := List (Str × ScaleMap)

/-- `if k not in d: d[k] = {}` followed by an in-place update of `d[k]`
(lines 135-140): update the value at `k`, defaulting to `d`. -/
def dictUpd {V : Type} (l : List (Str × V)) (k : Str) (d : V) (f : V → V) :
    List (Str × V) :=
  alSet l k (f ((alLookup l k).getD d))

/-- One `temp_updates` entry merged into the tree (lines 133-140). -/
def treeInsert (t : ResultTree) (u : Update) : ResultTree :=
  dictUpd t u.op [] (fun m1 =>
    dictUpd m1 u.scale [] (fun m2 =>
      dictUpd m2 u.backend [] (fun m3 =>
        alSet m3 u.impl u.stats)))

/-- `filename.replace('bench_', '').replace('.txt', '')` (line 106). -/
def backend_of (filename : Str) : Str :=
  strReplace (strReplace filename ("bench_".data) []) (".txt".data) []

/-- Processing of one existing source file (lines 100-142): the updates are
merged only when `new_entries_found` is set, otherwise the tree is left
untouched. -/
def applyFile (t : ResultTree) (filename : Str) (lines : List (Option Json)) : ResultTree :=
  let r := processFile (backend_of filename) lines
  if r.1 then r.2.foldl treeInsert t else t

/-- main's loop over the source files, starting from the tree loaded from
the previously persisted JSON document (empty `{}` on a fresh run).  Each
element of `files` is a (filename, parsed lines) pair of a file that
exists; a missing file is simply absent from the list. -/
def runMain (t0 : ResultTree) (files : List (Str × List (Option Json))) : ResultTree :=
  files.foldl (fun t f => applyFile t f.1 f.2) t0

/-- `data[op][scale][backend]`: one (scale, backend) cell of an operation. -/
def cellOf (t : ResultTree) (op scale backend : Str) : Option ImplMap :=
  (alLookup t op).bind (fun m1 =>
    (alLookup m1 scale).bind (fun m2 => alLookup m2 backend))

/-- The statistics object stored at one (op, scale, backend, impl) key
tuple of the tree. -/
def lookup4 (t : ResultTree) (op scale backend impl : Str) : Option Json :=
  (cellOf t op scale backend).bind (fun m3 => alLookup m3 impl)

/-! ## Reporter (proc.py lines 61-83) -/

/-- `st['mean']` of a statistics object, as a number; `none` models the
uncaught exception raised when `st` is not an object with a numeric
`mean`. -/
def getMean (st : Json) : Option ℚ :=
  match st with
  | .obj fs =>
    match alLookup fs ("mean".data) with
    | some (.num q) => some q
    | _ => none
  | _ => none

/-- Baseline selection (proc.py lines 62-67): `naive` if present, else
`lib` if present, else `list(impls.keys())[0]` — the first key (`none`
models the exception on an empty cell, which the normalizer never
produces). -/
def baseline_key (impls : ImplMap) : Option Str :=
  if (alLookup impls ("naive".data)).isSome then some ("naive".data)
  else if (alLookup impls ("lib".data)).isSome then some ("lib".data)
  else (impls.map Prod.fst).head?

/-- `baseline_time = impls[baseline_key]['mean']` (proc.py line 69). -/
def baseline_time (impls : ImplMap) : Option ℚ :=
  (baseline_key impls).bind (fun k => (alLookup impls k).bind getMean)

/-- `get_speedup` (proc.py lines 75-78): `baseline_time / impls[key]['mean']`
when the key is present with a strictly positive mean; 0 when the key is
present with a non-positive mean or absent; `none` models the uncaught
exception when a present key's statistics lack a numeric `mean`. -/
def get_speedup (impls : ImplMap) (baselineTime : ℚ) (key : Str) : Option ℚ :=
  match alLookup impls key with
  | some st => (getMean st).map (fun m => if 0 < m then baselineTime / m else 0)
  | none => some 0

/-- The reported speedup of `key` in one (scale, backend) cell: baseline
time computed at line 69, then `get_speedup`. -/
def speedup (impls : ImplMap) (key : Str) : Option ℚ :=
  (baseline_time impls).bind (fun bt => get_speedup impls bt key)

/-! ## Auxiliary definitions used in the claim statements -/

/-- The operation-name extraction of `get_info`: prefix stripping followed
by alias canonicalization. -/
def extractOp (label : Str) : Str := (get_info label).op

def isObjEntry : Json → Bool
  | .obj _ => true
  | _ => false

def objFields : Json → List (Str × Json)
  | .obj fs => fs
  | _ => []

/-- Spec-side description of a `scale(N)` substring: the literal `scale(`,
then the nonempty digit string `ds`, then `)`, occurring at position `i`
of `s`. -/
def scaleAt (s : Str) (i : Nat) (ds : Str) : Prop :=
  ds ≠ [] ∧ ds.all Char.isDigit = true ∧
    ∃ q, s.drop i = "scale(".data ++ ds ++ ')' :: q

/-! ## Concrete data for the end-to-end statements -/

def exLabelNaive : Str := "naive_mat_mul scale(64)".data

def exLabelArr : Str := "array1d_mat_mul scale(64)".data

def exStats10 : Json := Json.obj [("mean".data, Json.num 10)]

def exStats2 : Json := Json.obj [("mean".data, Json.num 2)]

/-- The input line of the spec's end-to-end example. -/
def exLine : Json :=
  Json.obj [("js".data,
    Json.arr [Json.obj [(exLabelNaive, exStats10)], Json.obj [(exLabelArr, exStats2)]])]

def exFileName : Str := "bench_js.txt".data

def exFiles : List (Str × List (Option Json)) := [(exFileName, [some exLine])]

/-- A line whose second entry is not a single-key mapping (it is the
number 1), used against C4. -/
def exBadLine : Json :=
  Json.obj [("js".data, Json.arr [Json.obj [(exLabelNaive, exStats10)], Json.num 1])]

/-- A cell whose only implementation is a baseline with mean 0, used
against C7. -/
def exImplsZero : ImplMap := [("naive".data, Json.obj [("mean".data, Json.num 0)])]

/-- A cell with a naive baseline (mean 10) and an array1d implementation
(mean 2). -/
def exImpls : ImplMap := [("naive".data, exStats10), ("array1d".data, exStats2)]

example : (get_info ("naive_mat_mul scale(64)".data)).op = "mat_mul".data := by decide
example : (get_info ("naive_mat_mul scale(64)".data)).scale = "64".data := by decide
example : (get_info ("naive_mat_mul scale(64)".data)).impl = "naive".data := by decide
example : (get_info ("array1d_mat_mul scale(64)".data)).impl = "array1d".data := by decide
example : (get_info ("vector_mul".data)).op = "vec_mul".data := by decide
example : (get_info ("vec_mul".data)).op = "mat_vec_mul".data := by decide
example : backend_of ("bench_js.txt".data) = "js".data := by decide
example : (get_info ("2d_matrix_determinant scale(8)".data)).op = "mat_det".data := by decide

/-! ## Association-list and merge lemmas -/

theorem alLookup_alSet {V : Type} (l : List (Str × V)) (k : Str) (w : V) (k2 : Str) :
    alLookup (alSet l k w) k2 = if k = k2 then some w else alLookup l k2 := by
  induction l with
  | nil => simp [alSet, alLookup]
  | cons hd t ih =>
    obtain ⟨a, v⟩ := hd
    by_cases hak : a = k
    · subst hak
      by_cases hk2 : a = k2 <;> simp [alSet, alLookup, hk2]
    · have halt : alSet ((a, v) :: t) k w = (a, v) :: alSet t k w := by
        simp [alSet, hak]
      by_cases ha2 : a = k2
      · subst ha2
        have hk2 : ¬ k = a := fun h => hak h.symm
        simp [halt, alLookup, hk2]
      · simp [halt, alLookup, ha2, ih]

theorem alLookup_dictUpd {V : Type} (l : List (Str × V)) (k : Str) (d : V)
    (f : V → V) (k2 : Str) :
    alLookup (dictUpd l k d f) k2 =
      if k = k2 then some (f ((alLookup l k).getD d)) else alLookup l k2 := by
  simp [dictUpd, alLookup_alSet]

/-- Reading the (backend, impl) path of one scale-level map. -/
def readB (m2 : BackendMap) (be im : Str) : Option Json :=
  (alLookup m2 be).bind (fun m3 => alLookup m3 im)

/-- Reading the (scale, backend, impl) path of one operation-level map. -/
def readS (m1 : ScaleMap) (sc be im : Str) : Option Json :=
  (alLookup m1 sc).bind (fun m2 => readB m2 be im)

theorem lookup4_eq_read (t : ResultTree) (op sc be im : Str) :
    lookup4 t op sc be im = (alLookup t op).bind (fun m1 => readS m1 sc be im) := by
  cases h1 : alLookup t op with
  | none => simp [lookup4, cellOf, h1]
  | some m1 =>
    cases h2 : alLookup m1 sc with
    | none => simp [lookup4, cellOf, readS, h1, h2]
    | some m2 => simp [lookup4, cellOf, readS, readB, h1, h2]

theorem readB_upd (m2 : BackendMap) (u : Update) (be im : Str) :
    readB (dictUpd m2 u.backend [] (fun m3 => alSet m3 u.impl u.stats)) be im =
      if u.backend = be ∧ u.impl = im then some u.stats else readB m2 be im := by
  by_cases hb : u.backend = be
  · subst hb
    have h1 : readB (dictUpd m2 u.backend [] (fun m3 => alSet m3 u.impl u.stats))
        u.backend im
        = alLookup (alSet ((alLookup m2 u.backend).getD []) u.impl u.stats) im := by
      simp [readB, alLookup_dictUpd]
    rw [h1, alLookup_alSet]
    by_cases hi : u.impl = im
    · rw [if_pos hi, if_pos ⟨rfl, hi⟩]
    · rw [if_neg hi, if_neg (fun h => hi h.2)]
      cases halt : alLookup m2 u.backend <;> simp [readB, halt, alLookup]
  · simp [readB, alLookup_dictUpd, hb]

theorem readS_upd (m1 : ScaleMap) (u : Update) (sc be im : Str) :
    readS (dictUpd m1 u.scale []
        (fun m2 => dictUpd m2 u.backend [] (fun m3 => alSet m3 u.impl u.stats)))
        sc be im =
      if u.scale = sc ∧ u.backend = be ∧ u.impl = im then some u.stats
      else readS m1 sc be im := by
  by_cases hs : u.scale = sc
  · subst hs
    have h1 : readS (dictUpd m1 u.scale []
        (fun m2 => dictUpd m2 u.backend [] (fun m3 => alSet m3 u.impl u.stats)))
        u.scale be im =
        readB (dictUpd ((alLookup m1 u.scale).getD []) u.backend []
          (fun m3 => alSet m3 u.impl u.stats)) be im := by
      simp [readS, alLookup_dictUpd]
    rw [h1, readB_upd]
    by_cases hbi : u.backend = be ∧ u.impl = im
    · rw [if_pos hbi, if_pos ⟨rfl, hbi⟩]
    · rw [if_neg hbi, if_neg (fun h => hbi h.2)]
      cases halt : alLookup m1 u.scale <;> simp [readS, readB, halt, alLookup]
  · simp [readS, alLookup_dictUpd, hs]

/-- Merging one update touches exactly its own key tuple, where it stores
its statistics object. -/
theorem lookup4_treeInsert (t : ResultTree) (u : Update) (op sc be im : Str) :
    lookup4 (treeInsert t u) op sc be im =
      if u.op = op ∧ u.scale = sc ∧ u.backend = be ∧ u.impl = im then some u.stats
      else lookup4 t op sc be im := by
  rw [lookup4_eq_read, lookup4_eq_read]
  unfold treeInsert
  by_cases ho : u.op = op
  · subst ho
    have h1 : (alLookup (dictUpd t u.op []
        (fun m1 => dictUpd m1 u.scale []
          (fun m2 => dictUpd m2 u.backend [] (fun m3 => alSet m3 u.impl u.stats))))
            u.op).bind (fun m1 => readS m1 sc be im)
        = readS (dictUpd ((alLookup t u.op).getD []) u.scale []
            (fun m2 => dictUpd m2 u.backend [] (fun m3 => alSet m3 u.impl u.stats)))
            sc be im := by
      simp [alLookup_dictUpd]
    rw [h1, readS_upd]
    by_cases hsbi : u.scale = sc ∧ u.backend = be ∧ u.impl = im
    · rw [if_pos hsbi, if_pos ⟨rfl, hsbi⟩]
    · rw [if_neg hsbi, if_neg (fun h => hsbi h.2)]
      cases halt : alLookup t u.op <;> simp [readS, halt, alLookup]
  · simp [alLookup_dictUpd, ho]

/-- The statistics object of the last update in `us` whose key tuple is
(op, sc, be, im), if any. -/
def lastWrite (us : List Update) (op sc be im : Str) : Option Json :=
  match us with
  | [] => none
  | u :: rest =>
    match lastWrite rest op sc be im with
    | some s => some s
    | none =>
      if u.op = op ∧ u.scale = sc ∧ u.backend = be ∧ u.impl = im then some u.stats
      else none

theorem lastWrite_append (l1 l2 : List Update) (op sc be im : Str) :
    lastWrite (l1 ++ l2) op sc be im =
      match lastWrite l2 op sc be im with
      | some s => some s
      | none => lastWrite l1 op sc be im := by
  induction l1 with
  | nil => cases h : lastWrite l2 op sc be im <;> simp [lastWrite, h]
  | cons u t ih =>
    simp only [List.cons_append, lastWrite, List.append_eq]
    rw [ih]
    cases h2 : lastWrite l2 op sc be im <;> cases ht : lastWrite t op sc be im <;>
      simp [lastWrite, h2, ht]

theorem lookup4_foldl (us : List Update) (t : ResultTree) (op sc be im : Str) :
    lookup4 (us.foldl treeInsert t) op sc be im =
      match lastWrite us op sc be im with
      | some s => some s
      | none => lookup4 t op sc be im := by
  induction us generalizing t with
  | nil => simp [lastWrite]
  | cons u rest ih =>
    simp only [List.foldl_cons, ih, lastWrite, lookup4_treeInsert]
    cases hr : lastWrite rest op sc be im with
    | some s => simp
    | none =>
      by_cases hc : u.op = op ∧ u.scale = sc ∧ u.backend = be ∧ u.impl = im <;>
        simp [hc]

/-- The concatenation, in processing order, of the update lists of the
files whose `new_entries_found` flag was set (the ones main merges). -/
def appliedUpdates : List (Str × List (Option Json)) → List Update
  | [] => []
  | f :: rest =>
    (let r := processFile (backend_of f.1) f.2
     if r.1 then r.2 else []) ++ appliedUpdates rest

theorem lookup4_runMain (t0 : ResultTree) (files : List (Str × List (Option Json)))
    (op sc be im : Str) :
    lookup4 (runMain t0 files) op sc be im =
      match lastWrite (appliedUpdates files) op sc be im with
      | some s => some s
      | none => lookup4 t0 op sc be im := by
  induction files generalizing t0 with
  | nil => simp [runMain, appliedUpdates, lastWrite]
  | cons f rest ih =>
    have hrun : runMain t0 (f :: rest) = runMain (applyFile t0 f.1 f.2) rest := rfl
    rw [hrun, ih]
    simp only [appliedUpdates, lastWrite_append]
    cases hr : lastWrite (appliedUpdates rest) op sc be im with
    | some s => simp
    | none =>
      simp only
      cases hf : (processFile (backend_of f.1) f.2).1 with
      | true => simp [applyFile, hf, lookup4_foldl]
      | false => simp [applyFile, hf, lastWrite]

/-! ## Claims about the normalizer merge -/

/-- C2: after normalization, the statistics object stored at a given
(operation, scale, backend, implementation) key tuple is the one of the
last applied update for that exact tuple, files processed in order and an
existing entry silently overwritten; tuples never updated keep the value
of the previously persisted tree. -/
theorem claim_C2 (t0 : ResultTree) (files : List (Str × List (Option Json)))
    (op sc be im : Str) :
    lookup4 (runMain t0 files) op sc be im =
      match lastWrite (appliedUpdates files) op sc be im with
      | some s => some s
      | none => lookup4 t0 op sc be im :=
  lookup4_runMain t0 files op sc be im

/-- C3: a source file whose processing produced no update (no successfully
parsed entry with non-empty content yields one) leaves the tree — in
particular every entry previously persisted for its backend — completely
unchanged. -/
theorem claim_C3 (t : ResultTree) (filename : Str) (lines : List (Option Json))
    (h : (processFile (backend_of filename) lines).2 = []) :
    applyFile t filename lines = t := by
  unfold applyFile
  cases hf : (processFile (backend_of filename) lines).1 <;> simp [hf, h]

theorem wit_C3 :
    applyFile [("mat_mul".data, [])] exFileName
        [none, some (Json.obj []), some (Json.num 3)]
      = [("mat_mul".data, [])] :=
  claim_C3 [("mat_mul".data, [])] exFileName
    [none, some (Json.obj []), some (Json.num 3)] rfl

/-- C10: a normalizer run never deletes entries — every key tuple present
in the loaded tree is still present (possibly overwritten) after the run,
for every combination of input files. -/
theorem claim_C10 (t0 : ResultTree) (files : List (Str × List (Option Json)))
    (op sc be im : Str) (s : Json) (h : lookup4 t0 op sc be im = some s) :
    ∃ s2, lookup4 (runMain t0 files) op sc be im = some s2 := by
  rw [lookup4_runMain]
  cases hl : lastWrite (appliedUpdates files) op sc be im with
  | some s3 => exact ⟨s3, rfl⟩
  | none => exact ⟨s, by simp [h]⟩

theorem wit_C10 :
    ∃ s2, lookup4 (runMain [("mat_mul".data, [("64".data, [("js".data,
        [("naive".data, exStats2)])])])] exFiles)
      ("mat_mul".data) ("64".data) ("js".data) ("naive".data) = some s2 :=
  claim_C10 [("mat_mul".data, [("64".data, [("js".data, [("naive".data, exStats2)])])])]
    exFiles ("mat_mul".data) ("64".data) ("js".data) ("naive".data) exStats2 rfl

/-! ## Claims about the reporter -/

theorem alLookup_isSome_iff {V : Type} (l : List (Str × V)) (k : Str) :
    (alLookup l k).isSome = true ↔ k ∈ l.map Prod.fst := by
  induction l with
  | nil => simp [alLookup]
  | cons hd t ih =>
    obtain ⟨a, v⟩ := hd
    show (if a = k then some v else alLookup t k).isSome = true ↔
      k ∈ a :: t.map Prod.fst
    by_cases hak : a = k
    · subst hak
      rw [if_pos rfl]
      exact ⟨fun _ => List.mem_cons_self _ _, fun _ => rfl⟩
    · rw [if_neg hak, ih, List.mem_cons]
      have hka : ¬ k = a := fun h => hak h.symm
      tauto

/-- C5: baseline selection for a cell: the implementation named `naive` if
present, else `lib` if present, else the first-encountered implementation
of the cell. -/
theorem claim_C5 (impls : ImplMap) :
    ("naive".data ∈ impls.map Prod.fst → baseline_key impls = some ("naive".data))
    ∧ ("naive".data ∉ impls.map Prod.fst → "lib".data ∈ impls.map Prod.fst →
        baseline_key impls = some ("lib".data))
    ∧ ("naive".data ∉ impls.map Prod.fst → "lib".data ∉ impls.map Prod.fst →
        baseline_key impls = (impls.map Prod.fst).head?) := by
  refine ⟨fun h1 => ?_, fun h1 h2 => ?_, fun h1 h2 => ?_⟩
  · have hn : (alLookup impls ("naive".data)).isSome = true :=
      (alLookup_isSome_iff impls ("naive".data)).2 h1
    simp [baseline_key, hn]
  · have hn : ¬ (alLookup impls ("naive".data)).isSome = true :=
      fun hs => h1 ((alLookup_isSome_iff impls ("naive".data)).1 hs)
    have hl : (alLookup impls ("lib".data)).isSome = true :=
      (alLookup_isSome_iff impls ("lib".data)).2 h2
    simp [baseline_key, hn, hl]
  · have hn : ¬ (alLookup impls ("naive".data)).isSome = true :=
      fun hs => h1 ((alLookup_isSome_iff impls ("naive".data)).1 hs)
    have hl : ¬ (alLookup impls ("lib".data)).isSome = true :=
      fun hs => h2 ((alLookup_isSome_iff impls ("lib".data)).1 hs)
    simp [baseline_key, hn, hl]

theorem wit_C5 : baseline_key exImpls = some ("naive".data) :=
  (claim_C5 exImpls).1 (by decide)

/-- C6: for a tracked implementation slot, the reported speedup is the
baseline's mean divided by the slot's mean when the slot is present with a
strictly positive mean, and 0 when the slot's mean is not strictly
positive or the slot is absent from the cell. -/
theorem claim_C6 (impls : ImplMap) (key : Str)
    (hk : key ∈ ["lib".data, "array1d".data, "array2d".data, "naive".data])
    (bt : ℚ) (hbt : baseline_time impls = some bt) :
    (∀ st, alLookup impls key = some st → ∀ m, getMean st = some m → 0 < m →
        speedup impls key = some (bt / m))
    ∧ (∀ st, alLookup impls key = some st → ∀ m, getMean st = some m → ¬ 0 < m →
        speedup impls key = some 0)
    ∧ (alLookup impls key = none → speedup impls key = some 0) := by
  refine ⟨fun st hst m hm hp => ?_, fun st hst m hm hp => ?_, fun habs => ?_⟩
  · simp [speedup, hbt, get_speedup, hst, hm, if_pos hp]
  · simp [speedup, hbt, get_speedup, hst, hm, if_neg hp]
  · simp [speedup, hbt, get_speedup, habs]

theorem wit_C6 : speedup exImpls ("array1d".data) = some 5 := by
  have h := (claim_C6 exImpls ("array1d".data) (by decide) 10 rfl).1
    exStats2 rfl 2 rfl (by norm_num)
  rw [h]
  norm_num

/-- C7 counterexample: in a cell whose baseline (`naive`) has mean 0, the
speedup computed for the baseline implementation is 0, not 1.0. -/
theorem cex_C7 :
    baseline_key exImplsZero = some ("naive".data)
    ∧ speedup exImplsZero ("naive".data) = some 0
    ∧ some (0 : ℚ) ≠ some (1 : ℚ) := by
  refine ⟨rfl, ?_, by norm_num⟩
  have h : speedup exImplsZero ("naive".data)
      = some (if 0 < (0 : ℚ) then 0 / 0 else 0) := rfl
  rw [h, if_neg (lt_irrefl (0 : ℚ))]

/-- C7 (amended): the speedup computed for the implementation selected as
the baseline is exactly 1.0 provided the baseline implementation's mean is
strictly positive. -/
theorem claim_C7_amended (impls : ImplMap) (bk : Str)
    (hbk : baseline_key impls = some bk) (st : Json)
    (hst : alLookup impls bk = some st) (m : ℚ) (hm : getMean st = some m)
    (hpos : 0 < m) :
    speedup impls bk = some 1 := by
  have hbt : baseline_time impls = some m := by
    simp [baseline_time, hbk, hst, hm]
  simp [speedup, hbt, get_speedup, hst, hm, if_pos hpos, div_self (ne_of_gt hpos)]

theorem wit_C7 :
    speedup [("naive".data, exStats2)] ("naive".data) = some 1 :=
  claim_C7_amended [("naive".data, exStats2)] ("naive".data) rfl exStats2 rfl 2 rfl
    (by norm_num)

/-! ## Claims about name extraction -/

/-- C8 counterexample: extraction is not idempotent.  `vector_mul` strips
no prefix and canonicalizes to `vec_mul` (via the `vector_` rename), but
`vec_mul` is itself a key of the alias table and canonicalizes further to
`mat_vec_mul`. -/
theorem cex_C8 :
    extractOp ("vector_mul".data) = "vec_mul".data
    ∧ extractOp (extractOp ("vector_mul".data)) = "mat_vec_mul".data
    ∧ extractOp (extractOp ("vector_mul".data)) ≠ extractOp ("vector_mul".data) :=
  ⟨by decide, by decide, by decide⟩

theorem stripOnce_shrink (op op2 : Str) (h : stripOnce op = some op2) :
    op2.length < op.length := by
  unfold stripOnce at h
  cases hf : prefixTable.find? (fun p => p.isPrefixOf op) with
  | none => rw [hf] at h; exact absurd h (by simp)
  | some p =>
    rw [hf] at h
    simp only [Option.map_some'] at h
    have hpre : p.isPrefixOf op = true := by
      have := List.find?_some hf
      simpa using this
    have hmem : p ∈ prefixTable := List.mem_of_find?_eq_some hf
    have hplen : 0 < p.length := by
      have hall : ∀ q ∈ prefixTable, 0 < q.length := by decide
      exact hall p hmem
    have hle : p.length ≤ op.length :=
      (List.isPrefixOf_iff_prefix.mp hpre).length_le
    have hoplen : 0 < op.length := lt_of_lt_of_le hplen hle
    have h2 : List.drop p.length op = op2 := Option.some.inj h
    rw [← h2]
    simpa using Nat.sub_lt hoplen hplen

theorem stripOnce_stripAllF (fuel : Nat) (op : Str) (h : op.length ≤ fuel) :
    stripOnce (stripAllF fuel op) = none := by
  induction fuel generalizing op with
  | zero =>
    have hop : op = [] := List.length_eq_zero.mp (Nat.le_zero.mp h)
    subst hop
    decide
  | succ f ih =>
    show stripOnce (match stripOnce op with
      | some op2 => stripAllF f op2
      | none => op) = none
    cases hso : stripOnce op with
    | none => exact hso
    | some op2 =>
      exact ih op2 (Nat.le_of_lt_succ (lt_of_lt_of_le (stripOnce_shrink op op2 hso) h))

theorem stripAllF_fix (fuel : Nat) (op : Str) (h : stripOnce op = none) :
    stripAllF fuel op = op := by
  cases fuel with
  | zero => rfl
  | succ f =>
    show (match stripOnce op with
      | some op2 => stripAllF f op2
      | none => op) = op
    rw [h]

/-- C8 (amended): the prefix-stripping pass alone is idempotent — applying
the `while changed` stripping loop to an already-stripped name returns the
name unchanged.  (The full extraction including alias canonicalization is
not idempotent, see the counterexample.) -/
theorem claim_C8_amended (op : Str) : stripAll (stripAll op) = stripAll op :=
  stripAllF_fix (stripAll op).length (stripAll op)
    (stripOnce_stripAllF op.length op le_rfl)

theorem takeWhile_all_append (p : Char → Bool) (l1 l2 : Str)
    (h : ∀ c ∈ l1, p c = true) :
    (l1 ++ l2).takeWhile p = l1 ++ l2.takeWhile p := by
  induction l1 with
  | nil => simp
  | cons c cs ih =>
    have hc : p c = true := h c (List.mem_cons_self c cs)
    simp only [List.cons_append, List.takeWhile_cons_of_pos hc]
    rw [ih (fun x hx => h x (List.mem_cons_of_mem c hx))]

theorem dropWhile_all_append (p : Char → Bool) (l1 l2 : Str)
    (h : ∀ c ∈ l1, p c = true) :
    (l1 ++ l2).dropWhile p = l2.dropWhile p := by
  induction l1 with
  | nil => simp
  | cons c cs ih =>
    have hc : p c = true := h c (List.mem_cons_self c cs)
    simp only [List.cons_append, List.dropWhile_cons_of_pos hc]
    exact ih (fun x hx => h x (List.mem_cons_of_mem c hx))

theorem matchScaleHere_some (ds q : Str) (hne : ds ≠ [])
    (hall : ds.all Char.isDigit = true) :
    matchScaleHere ("scale(".data ++ ds ++ ')' :: q) = some ds := by
  have hdig : ∀ c ∈ ds, Char.isDigit c = true :=
    fun c hc => List.all_eq_true.mp hall c hc
  have hpre : ("scale(".data).isPrefixOf ("scale(".data ++ ds ++ ')' :: q) = true :=
    List.isPrefixOf_iff_prefix.mpr ⟨ds ++ ')' :: q, rfl⟩
  have hdrop : ("scale(".data ++ ds ++ ')' :: q).drop ("scale(".data).length
      = ds ++ ')' :: q := List.drop_left _ _
  have htake : (ds ++ ')' :: q).takeWhile Char.isDigit = ds := by
    rw [takeWhile_all_append _ _ _ hdig, List.takeWhile_cons_of_neg (by decide)]
    simp
  have hdropw : (ds ++ ')' :: q).dropWhile Char.isDigit = ')' :: q := by
    rw [dropWhile_all_append _ _ _ hdig, List.dropWhile_cons_of_neg (by decide)]
  unfold matchScaleHere
  rw [if_pos hpre, hdrop, htake, hdropw]
  rw [if_pos ⟨hne, rfl⟩]

theorem matchScaleHere_eq_some (t ds : Str) (h : matchScaleHere t = some ds) :
    ds ≠ [] ∧ ds.all Char.isDigit = true ∧
      ∃ q, t = "scale(".data ++ ds ++ ')' :: q := by
  unfold matchScaleHere at h
  by_cases hp : ("scale(".data).isPrefixOf t = true
  case neg => rw [if_neg hp] at h; exact absurd h (by simp)
  case pos =>
    rw [if_pos hp] at h
    by_cases hc : (t.drop ("scale(".data).length).takeWhile Char.isDigit ≠ [] ∧
        ((t.drop ("scale(".data).length).dropWhile Char.isDigit).head? = some ')'
    case neg => rw [if_neg hc] at h; exact absurd h (by simp)
    case pos =>
      rw [if_pos hc] at h
      have hds : (t.drop ("scale(".data).length).takeWhile Char.isDigit = ds :=
        Option.some.inj h
      obtain ⟨r, hr⟩ := List.isPrefixOf_iff_prefix.mp hp
      have hrest : t.drop ("scale(".data).length = r := by
        rw [← hr]
        exact List.drop_left _ _
      refine ⟨hds ▸ hc.1, ?_, ?_⟩
      · rw [← hds]
        exact List.all_eq_true.mpr (fun c hc2 => List.mem_takeWhile_imp hc2)
      · cases hdw : (t.drop ("scale(".data).length).dropWhile Char.isDigit with
        | nil => rw [hdw] at hc; exact absurd hc.2 (by simp)
        | cons c q =>
          have hcp : c = ')' := by
            have := hc.2
            rw [hdw] at this
            simpa using this
          have h1 : r.takeWhile Char.isDigit = ds := by rw [← hrest]; exact hds
          have h2 : r.dropWhile Char.isDigit = ')' :: q := by
            rw [← hrest, hdw, hcp]
          have h3 : r = ds ++ ')' :: q := by
            rw [← h1, ← h2]
            exact (List.takeWhile_append_dropWhile Char.isDigit r).symm
          exact ⟨q, by rw [← hr, h3, List.append_assoc]⟩

theorem scaleAt_iff (s : Str) (i : Nat) (ds : Str) :
    scaleAt s i ds ↔ matchScaleHere (s.drop i) = some ds := by
  unfold scaleAt
  constructor
  · rintro ⟨hne, hall, q, hq⟩
    rw [hq]
    exact matchScaleHere_some ds q hne hall
  · intro h
    exact matchScaleHere_eq_some _ _ h

theorem findScale_spec (s : Str) :
    (∃ i ds, matchScaleHere (s.drop i) = some ds ∧
        (∀ j, j < i → matchScaleHere (s.drop j) = none) ∧ findScale s = some ds)
    ∨ ((∀ i, matchScaleHere (s.drop i) = none) ∧ findScale s = none) := by
  induction s with
  | nil =>
    right
    refine ⟨fun i => ?_, rfl⟩
    rw [List.drop_nil]
    decide
  | cons c cs ih =>
    cases hm : matchScaleHere (c :: cs) with
    | some ds =>
      left
      refine ⟨0, ds, by simpa using hm, fun j hj => absurd hj (Nat.not_lt_zero j), ?_⟩
      show (match matchScaleHere (c :: cs) with
        | some ds => some ds
        | none => findScale cs) = some ds
      rw [hm]
    | none =>
      have hfs : findScale (c :: cs) = findScale cs := by
        show (match matchScaleHere (c :: cs) with
          | some ds => some ds
          | none => findScale cs) = findScale cs
        rw [hm]
      rcases ih with ⟨i, ds, h1, h2, h3⟩ | ⟨h1, h2⟩
      · left
        refine ⟨i + 1, ds, by simpa using h1, ?_, by rw [hfs]; exact h3⟩
        intro j hj
        cases j with
        | zero => simpa using hm
        | succ j2 => simpa using h2 j2 (Nat.lt_of_succ_lt_succ hj)
      · right
        refine ⟨fun i => ?_, by rw [hfs]; exact h2⟩
        cases i with
        | zero => simpa using hm
        | succ i2 => simpa using h1 i2

/-- C9: the scale extracted by get_info is the literal digit string of the
leftmost `scale(N)` substring when one exists, and the token `unknown`
when none exists. -/
theorem claim_C9 (s : Str) :
    (∃ i ds, scaleAt s i ds ∧ (∀ j ds2, j < i → ¬ scaleAt s j ds2) ∧
        (get_info s).scale = ds)
    ∨ ((∀ i ds, ¬ scaleAt s i ds) ∧ (get_info s).scale = "unknown".data) := by
  rcases findScale_spec s with ⟨i, ds, h1, h2, h3⟩ | ⟨h1, h2⟩
  · left
    refine ⟨i, ds, (scaleAt_iff s i ds).mpr h1, ?_, ?_⟩
    · intro j ds2 hj hsc
      have hj2 := (scaleAt_iff s j ds2).mp hsc
      rw [h2 j hj] at hj2
      exact Option.noConfusion hj2
    · show (findScale s).getD ("unknown".data) = ds
      rw [h3]
      rfl
  · right
    refine ⟨?_, ?_⟩
    · intro i ds hsc
      have hi := (scaleAt_iff s i ds).mp hsc
      rw [h1 i] at hi
      exact Option.noConfusion hi
    · show (findScale s).getD ("unknown".data) = "unknown".data
      rw [h2]
      rfl

/-! ## End-to-end example and line-shape claims -/

/-- C1: processing the example line from a file named `bench_js.txt` stores
the two statistics objects at (mat_mul, 64, js, naive) and
(mat_mul, 64, js, array1d), and the reporter computes a speedup of 5 for
the array1d implementation of that cell. -/
theorem claim_C1 :
    lookup4 (runMain [] exFiles) ("mat_mul".data) ("64".data) ("js".data)
        ("naive".data) = some exStats10
    ∧ lookup4 (runMain [] exFiles) ("mat_mul".data) ("64".data) ("js".data)
        ("array1d".data) = some exStats2
    ∧ (cellOf (runMain [] exFiles) ("mat_mul".data) ("64".data) ("js".data)).bind
        (fun impls => speedup impls ("array1d".data)) = some 5 := by
  refine ⟨rfl, rfl, ?_⟩
  have h : (cellOf (runMain [] exFiles) ("mat_mul".data) ("64".data) ("js".data)).bind
      (fun impls => speedup impls ("array1d".data))
      = some (if 0 < (2 : ℚ) then 10 / 2 else 0) := rfl
  rw [h, if_pos (by norm_num : (0 : ℚ) < 2)]
  norm_num

/-- C4 counterexample: the line `{"js": [{"naive_mat_mul scale(64)":
{"mean": 10}}, 1]}` is not of the claimed shape (its second entry is not a
single-key mapping), yet it is not skipped: its first entry's update is
appended and the new-data flag is set. -/
theorem cex_C4 :
    (processLine ("js".data) (some exBadLine)).1 = true
    ∧ (processLine ("js".data) (some exBadLine)).2 =
        [{ op := "mat_mul".data, scale := "64".data, backend := "js".data,
           impl := "naive".data, stats := exStats10 }]
    ∧ (processLine ("js".data) (some exBadLine)).2 ≠ [] := by
  refine ⟨rfl, rfl, fun hnil => ?_⟩
  exact absurd (congrArg List.length hnil) (by decide)

theorem entriesUpdates_eq (b : Str) (es : List Json) :
    entriesUpdates b es =
      (es.takeWhile isObjEntry).flatMap (fun e => entryUpdates b (objFields e)) := by
  induction es with
  | nil => rfl
  | cons e rest ih =>
    cases e with
    | obj fs =>
      show entryUpdates b fs ++ entriesUpdates b rest = _
      rw [List.takeWhile_cons_of_pos (by rfl), List.flatMap_cons, ih]
      rfl
    | null => rfl
    | bool bb => rfl
    | num q => rfl
    | str s2 => rfl
    | arr es2 => rfl

/-- C4 (amended): a line participates only if it parses as a JSON object
with at least one key whose first key's value is truthy; if that value is a
list, the line contributes exactly one update per key-value pair of each
entry in the longest all-object prefix of the list (a later malformed entry
aborts the rest of the line but earlier entries' updates are kept); if the
value is truthy but not a list, the flag is set with no updates; every
other line is silently skipped, contributing nothing. -/
theorem claim_C4_amended (b : Str) (l : Option Json) :
    processLine b l = (false, [])
    ∨ (∃ k v rest, l = some (Json.obj ((k, v) :: rest)) ∧ truthy v = true ∧
        processLine b l = (true,
          match v with
          | Json.arr es =>
            (es.takeWhile isObjEntry).flatMap (fun e => entryUpdates b (objFields e))
          | _ => [])) := by
  cases l with
  | none => exact Or.inl rfl
  | some j =>
    cases j with
    | null => exact Or.inl rfl
    | bool bb => exact Or.inl rfl
    | num q => exact Or.inl rfl
    | str s2 => exact Or.inl rfl
    | arr es => exact Or.inl rfl
    | obj fields =>
      cases fields with
      | nil => exact Or.inl rfl
      | cons kv rest =>
        obtain ⟨k, v⟩ := kv
        cases htr : truthy v with
        | false =>
          refine Or.inl ?_
          show (if truthy v = true then _ else (false, [])) = (false, [])
          rw [if_neg (by rw [htr]; exact Bool.false_ne_true)]
        | true =>
          refine Or.inr ⟨k, v, rest, rfl, htr, ?_⟩
          show (if truthy v = true then
              (true, match v with
                | Json.arr es => entriesUpdates b es
                | _ => []) else (false, [])) = _
          rw [if_pos htr]
          cases v with
          | arr es =>
            show (true, entriesUpdates b es)
              = (true, (es.takeWhile isObjEntry).flatMap
                  (fun e => entryUpdates b (objFields e)))
            rw [entriesUpdates_eq]
          | null => rfl
          | bool bb => rfl
          | num q => rfl
          | str s2 => rfl
          | obj fs => rfl
